import Mathlib

/-!
Verification development for the device aggregation and merge model of
`shinysdr/devices.py`.

Frequencies are modelled as rationals (the code uses Python floats only for
additive bookkeeping; none of the verified properties depend on rounding).
Driver and component objects are opaque to this module, so they are modelled
by numeric identities; the calls the module makes on them are recorded as an
event trace.
-/

namespace ShinySDR

abbrev Freq := ℚ

/-- A range type: a declared set of allowed intervals, as in
`RangeT([(lo, hi), ...])`. -/
structure RangeT where
  intervals : List (Freq × Freq)
deriving DecidableEq

/-- Modelled from the spec: `RangeT.get_single_point` (from the out-of-scope
types module) returns the sole allowed value when the allowed-interval set
collapses to exactly one point, else nothing. -/
def RangeT.get_single_point (r : RangeT) : Option Freq :=
  match r.intervals with
  | [(lo, hi)] => if lo = hi then some lo else none
  | _ => none

/-- Modelled from the spec: `RangeT.shifted_by` (from the out-of-scope types
module) translates every allowed interval by the given offset. -/
def RangeT.shifted_by (r : RangeT) (offset : Freq) : RangeT :=
  ⟨r.intervals.map (fun p => (p.1 + offset, p.2 + offset))⟩

/-- A frequency control point.  `loose` embeds `LooseCell` (a scalar cell
holding its own value); `view` embeds `ViewCell`, modelled from the spec: a
derived cell composing a base cell with read/write transforms and its own
range type, writability and persistence. -/
inductive Cell where
  | loose (value : Freq) (ty : RangeT) (writable : Bool) (persists : Bool)
  | view (base : Cell) (get_transform : Freq → Freq) (set_transform : Freq → Freq)
      (ty : RangeT) (writable : Bool) (persists : Bool)

def Cell.type : Cell → RangeT
  | .loose _ ty _ _ => ty
  | .view _ _ _ ty _ _ => ty

def Cell.writable : Cell → Bool
  | .loose _ _ w _ => w
  | .view _ _ _ _ w _ => w

/-- `metadata().persists` of a cell. -/
def Cell.persists : Cell → Bool
  | .loose _ _ _ p => p
  | .view _ _ _ _ _ p => p

/-- Modelled from the spec: reading a cell; a loose cell yields its stored
value, a view cell translates its base's value through `get_transform`. -/
def Cell.get : Cell → Freq
  | .loose v _ _ _ => v
  | .view base g _ _ _ _ => g base.get

/-- Modelled from the spec: writing a cell; a loose cell stores the value,
a view cell stores `set_transform value` into its base. -/
def Cell.set : Cell → Freq → Cell
  | .loose _ ty w p, x => .loose x ty w p
  | .view base g s ty w p, x => .view (base.set (s x)) g s ty w p

/-- The base cell of a view cell, when there is one. -/
def Cell.viewBase : Cell → Option Cell
  | .view base _ _ _ _ _ => some base
  | _ => none

/-- `_ConstantVFOCell(value)`: a fixed, non-writable, non-persisted cell whose
range is the single point `value`. -/
def _ConstantVFOCell (value : Freq) : Cell :=
  .loose value ⟨[(value, value)]⟩ false false

/-- The partition loop of `_merge_vfos`: fold over the points, summing the
fixed contributions and collecting the variable points in order. -/
def partitionVfos (vfos : List Cell) : Freq × List Cell :=
  vfos.foldl
    (fun acc vfo =>
      match vfo.type.get_single_point with
      | some p => (acc.1 + p, acc.2)
      | none => (acc.1, acc.2 ++ [vfo]))
    (0, [])

/-- `_merge_vfos(vfos)`: merge a list of frequency control points.
`Except.ok none` models returning Python `None` (no VFO); an `Except.error`
models the raised `ValueError`. -/
def _merge_vfos (vfos : List Cell) : Except String (Option Cell) :=
  let fixed := (partitionVfos vfos).1
  match (partitionVfos vfos).2 with
  | [] =>
      if fixed = 0 then .ok none
      else .ok (some (_ConstantVFOCell fixed))
  | [variable_one] =>
      if fixed = 0 then .ok (some variable_one)
      else .ok (some (.view variable_one
          (fun x => x + fixed)
          (fun x => x - fixed)
          (variable_one.type.shifted_by fixed)
          true
          variable_one.persists))
  | _ => .error "Multiple non-stub VFOs not yet supported."

/-- Receive drivers are opaque objects; only identity matters here. -/
abbrev RXDriver := Nat

/-- Transmit drivers are opaque objects; only identity matters here. -/
abbrev TXDriver := Nat

/-- Generic components are opaque objects; only identity matters here. -/
abbrev Component := Nat

/-- A component slot of a device: `some c` holds a live component, `none`
models the `nullExportedState` sentinel left behind by `close()`.  -/
abbrev ComponentSlot := Option Component

/-- The calls a `Device` makes on its drivers and components, recorded as a
trace. `hook` is an invocation of the `midpoint_hook` / `on_applied`
callback; per the transmit-driver contract, `tx_driver.set_transmitting`
invokes the hook itself, which `txSet` therefore also records. -/
inductive Event where
  | txSet (driver : TXDriver) (value : Bool)
  | hook
  | rxClose (driver : RXDriver)
  | txClose (driver : TXDriver)
  | componentClose (c : Component)
deriving DecidableEq

/-- The `Device` entity. `rx_driver`/`tx_driver` are `none` when they hold
the `nullExportedState` sentinel; `vfo_cell` is `none` when it holds the
`_stub_vfo` sentinel (Python compares against the sentinels by identity,
which the option encodes). -/
structure Device where
  name : Option String := none
  rx_driver : Option RXDriver := none
  tx_driver : Option TXDriver := none
  vfo_cell : Option Cell := none
  components : List (String × ComponentSlot) := []
  transmitting : Bool := false

/-- The `Device` constructor: stores the given parts and initialises
`transmitting` to false; every component slot starts live. -/
def Device.make (name : Option String) (rx : Option RXDriver) (tx : Option TXDriver)
    (vfo : Option Cell) (components : List (String × Component)) : Device :=
  { name := name
    rx_driver := rx
    tx_driver := tx
    vfo_cell := vfo
    components := components.map (fun p => (p.1, some p.2))
    transmitting := false }

/-- `_stub_vfo = _ConstantVFOCell(0.0)`, the fixed-at-zero sentinel. -/
def _stub_vfo : Cell := _ConstantVFOCell 0

def Device.can_receive (d : Device) : Bool := d.rx_driver.isSome

def Device.can_transmit (d : Device) : Bool := d.tx_driver.isSome

def Device.can_tune (d : Device) : Bool := d.vfo_cell.isSome

/-- `get_vfo_cell()`: the stored cell, which is the sentinel when the device
has no real tuning control. -/
def Device.get_vfo_cell (d : Device) : Cell := d.vfo_cell.getD _stub_vfo

def Device.componentKeys (d : Device) : List String := d.components.map Prod.fst

/-- `Device.set_transmitting(value, midpoint_hook)`: no-op (hook only) when
the device cannot transmit or the value equals the current state; otherwise
store the value and forward it, with the hook, to the transmit driver. -/
def Device.set_transmitting (d : Device) (value : Bool) : Device × List Event :=
  match d.tx_driver with
  | none => (d, [.hook])
  | some drv =>
      if value = d.transmitting then (d, [.hook])
      else ({ d with transmitting := value }, [.txSet drv value, .hook])

/-- Closing one component slot: a live component receives a `close()` call,
the sentinel left by a previous close does not (modelled from the spec: a
second `close()` call is a no-op on the already-cleared references). Either
way the slot is left holding the sentinel. -/
def closeSlot (slot : ComponentSlot) : ComponentSlot × List Event :=
  match slot with
  | some c => (none, [.componentClose c])
  | none => (none, [])

/-- `Device.close()`: close and clear the rx driver if present, then the tx
driver if present, then every component slot. -/
def Device.close (d : Device) : Device × List Event :=
  let rxEvents : List Event :=
    match d.rx_driver with
    | some r => [.rxClose r]
    | none => []
  let txEvents : List Event :=
    match d.tx_driver with
    | some t => [.txClose t]
    | none => []
  let componentEvents : List Event :=
    d.components.flatMap (fun p => (closeSlot p.2).2)
  ({ d with
      rx_driver := none
      tx_driver := none
      components := d.components.map (fun p => (p.1, (closeSlot p.2).1)) },
   rxEvents ++ txEvents ++ componentEvents)

/-- The operations on a live device that touch the transmit state machine or
lifecycle. -/
inductive DevOp where
  | setTransmitting (value : Bool)
  | close

def DevOp.apply (d : Device) : DevOp → Device × List Event
  | .setTransmitting v => d.set_transmitting v
  | .close => d.close

/-- Run a sequence of operations, accumulating the event trace. -/
def Device.run (d : Device) : List DevOp → Device × List Event
  | [] => (d, [])
  | op :: ops =>
      (((op.apply d).1.run ops).1, (op.apply d).2 ++ ((op.apply d).1.run ops).2)

/-- The values passed to `tx_driver.set_transmitting`, in order. -/
def txValues (evs : List Event) : List Bool :=
  evs.filterMap (fun e => match e with
    | .txSet _ v => some v
    | _ => none)

def hookCount (evs : List Event) : Nat :=
  (evs.filter (fun e => e = .hook)).length

/-- `Counter(k for d in devices for k in d.get_components_dict())[k]`: how
often key `k` occurs across the devices' component mappings. -/
def keyCount (devices : List Device) (k : String) : Nat :=
  (devices.flatMap Device.componentKeys).count k

/-- Assignment `m[k] = v` on an insertion-ordered mapping: overwrite the
existing entry in place, else append. -/
def dictInsert (m : List (String × α)) (k : String) (v : α) : List (String × α) :=
  if m.any (fun p => p.1 = k) then m.map (fun p => if p.1 = k then (k, v) else p)
  else m ++ [(k, v)]

/-- The key prefix chosen for device number `i`: its zero-based index and a
dash when any of its keys occurs more than once across all devices, else
empty. -/
def devicePfx (devices : List Device) (i : Nat) (d : Device) : String :=
  if d.componentKeys.any (fun k => 1 < keyCount devices k) then toString i ++ "-"
  else ""

/-- The component-merging loop of `merge_devices`. -/
def merge_components (devices : List Device) : List (String × ComponentSlot) :=
  devices.enum.foldl
    (fun acc p =>
      p.2.components.foldl
        (fun acc kc => dictInsert acc (devicePfx devices p.1 p.2 ++ kc.1) kc.2)
        acc)
    []

/-- `_at_most_one(name, zero, items)`: the single item, `zero` when there is
none, else the `ValueError` naming the role and the count found. -/
def _at_most_one (name : String) (zero : α) (items : List α) : Except String α :=
  match items with
  | [item] => .ok item
  | [] => .ok zero
  | _ => .error ("Exactly one " ++ name ++ " must be provided, not " ++
      toString items.length)

/-- `[d.get_rx_driver() for d in devices if d.can_receive()]`. -/
def collected_rx_drivers (devices : List Device) : List (Option RXDriver) :=
  (devices.filter Device.can_receive).map Device.rx_driver

/-- `[d.get_tx_driver() for d in devices if d.can_transmit()]`. -/
def collected_tx_drivers (devices : List Device) : List (Option TXDriver) :=
  (devices.filter Device.can_transmit).map Device.tx_driver

/-- `[d.get_vfo_cell() for d in devices if d.can_tune()]`: the list of VFO
cells `merge_devices` hands to `_merge_vfos`. -/
def merged_vfo_input (devices : List Device) : List Cell :=
  (devices.filter Device.can_tune).map Device.get_vfo_cell

/-- `merge_devices(devices)`: a single device is returned unchanged;
otherwise a composite is built, propagating the configuration errors of
`_at_most_one` (RX first, then TX) and `_merge_vfos` in evaluation order. -/
def merge_devices (devices : List Device) : Except String Device :=
  match devices with
  | [d] => .ok d
  | _ => do
      let names := devices.filterMap Device.name
      let rx ← _at_most_one "RX driver" none (collected_rx_drivers devices)
      let tx ← _at_most_one "TX driver" none (collected_tx_drivers devices)
      let vfo ← _merge_vfos (merged_vfo_input devices)
      .ok { name := if names.length = 0 then none
              else some (String.intercalate "+" names)
            rx_driver := rx
            tx_driver := tx
            vfo_cell := vfo
            components := merge_components devices
            transmitting := false }

/-- The well-typed inputs of `_coerce_channel_mapping`: the default `None`,
a channel number, a string, or an explicit matrix of numeric gains. -/
inductive ChannelMappingSpec where
  | nothing
  | int (n : Int)
  | str (s : String)
  | matrix (rows : List (List ℚ))

def ChannelMappingSpec.sizeMeasure : ChannelMappingSpec → Nat
  | .nothing => 1
  | _ => 0

/-- `_coerce_channel_mapping(channel_mapping)`: `None` defaults to `"IQ"`;
an integer `n > 0` yields the single row selecting input channel `n`;
`"IQ"`/`"QI"` yield the two fixed matrices; an explicit matrix must have one
or two rows of equal nonzero length. `Except.error` models the raised
`TypeError`. -/
def _coerce_channel_mapping : ChannelMappingSpec → Except String (List (List ℚ))
  | .int n =>
      if n ≤ 0 then
        .error "AudioDevice: channel_mapping channel number must be greater than 0"
      else
        .ok [(List.range n.toNat).map
          (fun (i : Nat) => if (i : Int) = n - 1 then 1 else 0)]
  | .str s =>
      if s = "IQ" then .ok [[1, 0], [0, 1]]
      else if s = "QI" then .ok [[0, 1], [1, 0]]
      else .error "AudioDevice: channel_mapping parameter must be a channel number, IQ, QI, or a 2xN list-of-lists matrix"
  | .matrix rows =>
      match rows with
      | [row] =>
          if row.length = 0 then
            .error "AudioDevice: channel_mapping must specify at least one input channel"
          else .ok [row]
      | [row0, row1] =>
          if row0.length ≠ row1.length then
            .error ("AudioDevice: channel_mapping must have the same number of input channels in each row but had " ++
              toString row0.length ++ " and " ++ toString row1.length)
          else if row0.length = 0 then
            .error "AudioDevice: channel_mapping must specify at least one input channel"
          else .ok [row0, row1]
      | _ => .error "AudioDevice: len(channel_mapping) must be 1 or 2"
  | .nothing => _coerce_channel_mapping (.str "IQ")
termination_by x => x.sizeMeasure
decreasing_by simp [ChannelMappingSpec.sizeMeasure]

/-- The keys of the merged component mapping, in insertion order. -/
def mergedKeys (devices : List Device) : List String :=
  (merge_components devices).map Prod.fst

/-! Concrete fixtures used by witnesses and counterexamples. -/

/-- A tunable (two-endpoint range) writable, persisted cell at 10 Hz. -/
def tunableCell : Cell := .loose 10 ⟨[(0, 100)]⟩ true true

/-- A tunable cell that is not writable and not persisted. -/
def roTunableCell : Cell := .loose 10 ⟨[(0, 100)]⟩ false false

/-- A device with component keys `0-j` and `j` and nothing else. -/
def devA : Device := Device.make none none none none [("0-j", 0), ("j", 1)]

/-- A device with the single component key `0-j`. -/
def devB : Device := Device.make none none none none [("0-j", 2)]

/-- A device with the single component key `k`. -/
def devC : Device := Device.make none none none none [("k", 3)]

/-- Another device with the single component key `k`. -/
def devD : Device := Device.make none none none none [("k", 4)]

/-- A receive-only device holding driver 7. -/
def rxDev (r : RXDriver) : Device := Device.make none (some r) none none []

/-- A transmit-capable device holding driver `t`, with tunable VFO. -/
def txDev (t : TXDriver) : Device :=
  Device.make none none (some t) (some tunableCell) [("c", 5)]

/-- A device with no drivers, no VFO and no components. -/
def bareDev : Device := Device.make none none none none []

/-- The writability flag of a successful, present frequency-merge result. -/
def exceptCellWritable (r : Except String (Option Cell)) : Option Bool :=
  match r with
  | .ok (some c) => some c.writable
  | _ => none

/-!  Theorems.  -/

theorem partition_fold (vfos : List Cell) (init : Freq × List Cell) :
    vfos.foldl
      (fun acc vfo =>
        match vfo.type.get_single_point with
        | some p => (acc.1 + p, acc.2)
        | none => (acc.1, acc.2 ++ [vfo])) init
    = (init.1 + (vfos.filterMap (fun v => v.type.get_single_point)).sum,
       init.2 ++ vfos.filter (fun v => v.type.get_single_point.isNone)) := by
  induction vfos generalizing init with
  | nil => simp
  | cons v rest ih =>
      cases h : v.type.get_single_point with
      | some p =>
          simp only [List.foldl_cons, h, List.filterMap_cons, List.filter_cons,
            List.sum_cons]
          rw [ih]
          simp [h, add_assoc]
      | none =>
          simp only [List.foldl_cons, h, List.filterMap_cons, List.filter_cons]
          rw [ih]
          simp [h]

theorem partitionVfos_eq (vfos : List Cell) :
    partitionVfos vfos
    = ((vfos.filterMap (fun v => v.type.get_single_point)).sum,
       vfos.filter (fun v => v.type.get_single_point.isNone)) := by
  unfold partitionVfos
  rw [partition_fold]
  simp

/-- Claim C1: the frequency-merge algorithm partitions its points into fixed
contributions (single-point allowed-interval set) and variable points, sums
the fixed contributions, and returns absent for 0 variable points with zero
total, a new fixed point at the total for 0 variable points with nonzero
total, the single variable point itself for 1 variable point with zero
total, and a configuration error for 2 or more variable points regardless of
the total. -/
theorem merge_vfos_decision_table (vfos : List Cell) :
    (partitionVfos vfos).1
      = (vfos.filterMap (fun v => v.type.get_single_point)).sum ∧
    (partitionVfos vfos).2
      = vfos.filter (fun v => v.type.get_single_point.isNone) ∧
    ((partitionVfos vfos).2 = [] → (partitionVfos vfos).1 = 0 →
      _merge_vfos vfos = .ok none) ∧
    ((partitionVfos vfos).2 = [] → (partitionVfos vfos).1 ≠ 0 →
      _merge_vfos vfos = .ok (some (_ConstantVFOCell (partitionVfos vfos).1))) ∧
    (∀ v, (partitionVfos vfos).2 = [v] → (partitionVfos vfos).1 = 0 →
      _merge_vfos vfos = .ok (some v)) ∧
    (2 ≤ (partitionVfos vfos).2.length →
      _merge_vfos vfos = .error "Multiple non-stub VFOs not yet supported.") := by
  refine ⟨(partitionVfos_eq vfos).symm ▸ rfl, (partitionVfos_eq vfos).symm ▸ rfl,
    ?_, ?_, ?_, ?_⟩
  · intro hv h0
    simp [_merge_vfos, hv, h0]
  · intro hv h0
    simp [_merge_vfos, hv, h0]
  · intro v hv h0
    simp [_merge_vfos, hv, h0]
  · intro hlen
    rcases h : (partitionVfos vfos).2 with _ | ⟨a, _ | ⟨b, rest⟩⟩ <;>
      rw [h] at hlen <;> simp at hlen
    simp [_merge_vfos, h]

/-- Witness for C1 at a concrete input: two variable points yield the
configuration error. -/
theorem merge_vfos_decision_table_witness :
    _merge_vfos [tunableCell, tunableCell]
      = .error "Multiple non-stub VFOs not yet supported." :=
  (merge_vfos_decision_table [tunableCell, tunableCell]).2.2.2.2.2
    (by simp [partitionVfos, tunableCell, Cell.type, RangeT.get_single_point])

/-- Claim C10: when every point of the frequency merge is fixed and the
total is nonzero, the composite point is the constant cell at the total:
non-writable, non-persisted, and reading the summed frequency. -/
theorem merge_vfos_all_fixed_constant (vfos : List Cell) (f : Freq)
    (hvar : (partitionVfos vfos).2 = [])
    (hfix : (partitionVfos vfos).1 = f)
    (hne : f ≠ 0) :
    _merge_vfos vfos = .ok (some (_ConstantVFOCell f)) ∧
    (_ConstantVFOCell f).get = f ∧
    (_ConstantVFOCell f).writable = false ∧
    (_ConstantVFOCell f).persists = false := by
  subst hfix
  refine ⟨?_, rfl, rfl, rfl⟩
  simp [_merge_vfos, hvar, hne]

/-- Witness for C10: merging the single fixed point 3 yields the constant
cell at 3. -/
theorem merge_vfos_all_fixed_constant_witness :
    _merge_vfos [_ConstantVFOCell 3] = .ok (some (_ConstantVFOCell 3)) ∧
    (_ConstantVFOCell 3).get = 3 ∧
    (_ConstantVFOCell 3).writable = false ∧
    (_ConstantVFOCell 3).persists = false := by
  refine merge_vfos_all_fixed_constant [_ConstantVFOCell 3] 3 rfl ?_ (by simp)
  simp [partitionVfos, _ConstantVFOCell, Cell.type, RangeT.get_single_point]

/-- Claim C2 (amended): with exactly one variable point and nonzero fixed
total, the result is a derived point whose reads return base plus the fixed
total, whose writes store the requested value minus the fixed total into the
base point, whose allowed-interval set is the base's shifted by the fixed
total and whose persistence mirrors the base; its writability does not
mirror the base: the derived point is always writable. -/
theorem merge_vfos_one_variable_view (vfos : List Cell) (base : Cell) (f : Freq)
    (hvar : (partitionVfos vfos).2 = [base])
    (hfix : (partitionVfos vfos).1 = f)
    (hne : f ≠ 0) :
    ∃ c, _merge_vfos vfos = .ok (some c) ∧
      c.get = base.get + f ∧
      (∀ x, (c.set x).viewBase = some (base.set (x - f))) ∧
      c.type = base.type.shifted_by f ∧
      c.persists = base.persists ∧
      c.writable = true := by
  subst hfix
  refine ⟨Cell.view base (fun x => x + (partitionVfos vfos).1)
      (fun x => x - (partitionVfos vfos).1)
      (base.type.shifted_by (partitionVfos vfos).1) true base.persists,
    ?_, rfl, fun x => rfl, rfl, rfl, rfl⟩
  simp [_merge_vfos, hvar, hne]

/-- Witness for C2 (amended) at a concrete input: one tunable point plus the
fixed point 5. -/
theorem merge_vfos_one_variable_view_witness :
    ∃ c, _merge_vfos [tunableCell, _ConstantVFOCell 5] = .ok (some c) ∧
      c.get = tunableCell.get + 5 ∧
      (∀ x, (c.set x).viewBase = some (tunableCell.set (x - 5))) ∧
      c.type = tunableCell.type.shifted_by 5 ∧
      c.persists = tunableCell.persists ∧
      c.writable = true := by
  refine merge_vfos_one_variable_view [tunableCell, _ConstantVFOCell 5]
    tunableCell 5 rfl ?_ (by simp)
  simp [partitionVfos, tunableCell, _ConstantVFOCell, Cell.type,
    RangeT.get_single_point]

/-- Counterexample to C2 as stated: merging a non-writable variable base
point with the fixed point 5 yields a derived point that is writable, so its
writability does not mirror the base point. -/
theorem merge_vfos_writability_counterexample :
    exceptCellWritable (_merge_vfos [roTunableCell, _ConstantVFOCell 5])
      = some true ∧
    roTunableCell.writable = false := by
  constructor
  · simp [_merge_vfos, exceptCellWritable, partitionVfos, roTunableCell,
      _ConstantVFOCell, Cell.type, RangeT.get_single_point, Cell.writable]
  · rfl

theorem txValues_append (a b : List Event) :
    txValues (a ++ b) = txValues a ++ txValues b := by
  simp [txValues]

theorem hookCount_append (a b : List Event) :
    hookCount (a ++ b) = hookCount a + hookCount b := by
  simp [hookCount]

theorem set_transmitting_noop (d : Device) (v : Bool)
    (h : d.can_transmit = false ∨ v = d.transmitting) :
    d.set_transmitting v = (d, [Event.hook]) := by
  unfold Device.set_transmitting
  cases htx : d.tx_driver with
  | none => rfl
  | some drv =>
      rcases h with h | h
      · simp [Device.can_transmit, htx] at h
      · simp [h]

theorem set_transmitting_apply (d : Device) (v : Bool) (drv : TXDriver)
    (htx : d.tx_driver = some drv) (hne : v ≠ d.transmitting) :
    d.set_transmitting v
      = ({d with transmitting := v}, [Event.txSet drv v, Event.hook]) := by
  unfold Device.set_transmitting
  simp [htx, hne]

theorem txValues_slotEvents (l : List (String × ComponentSlot)) :
    txValues (l.flatMap (fun p => (closeSlot p.2).2)) = [] := by
  induction l with
  | nil => rfl
  | cons p rest ih =>
      cases h : p.2 with
      | none => simpa [closeSlot, h, txValues_append] using ih
      | some c => simpa [closeSlot, h, txValues_append, txValues] using ih

theorem close_state (d : Device) :
    (d.close).1.transmitting = d.transmitting ∧
    (d.close).1.rx_driver = none ∧
    (d.close).1.tx_driver = none ∧ txValues (d.close).2 = [] := by
  refine ⟨rfl, rfl, rfl, ?_⟩
  have hcomp := txValues_slotEvents d.components
  unfold Device.close
  cases d.rx_driver <;> cases d.tx_driver <;>
    · simp only [txValues_append, hcomp]
      simp [txValues]

/-- Every operation either makes no transmit-driver call and preserves the
transmitting state, or makes exactly one call carrying the changed state. -/
theorem step_tx (d : Device) (op : DevOp) :
    (txValues (op.apply d).2 = [] ∧ (op.apply d).1.transmitting = d.transmitting) ∨
    (txValues (op.apply d).2 = [(op.apply d).1.transmitting] ∧
      (op.apply d).1.transmitting ≠ d.transmitting) := by
  cases op with
  | close =>
      left
      exact ⟨(close_state d).2.2.2, (close_state d).1⟩
  | setTransmitting v =>
      simp only [DevOp.apply]
      unfold Device.set_transmitting
      cases htx : d.tx_driver with
      | none => left; simp [txValues]
      | some drv =>
          by_cases hv : v = d.transmitting
          · left; simp [hv, txValues]
          · right; simp [hv, txValues]

/-- The transmitting state tracks the last driver-applied value, and the
values handed to the transmit driver never repeat the state they start
from. -/
theorem run_tx_invariant (d : Device) (ops : List DevOp) :
    (d.run ops).1.transmitting = (txValues (d.run ops).2).getLastD d.transmitting ∧
    List.Chain' (fun a b => a ≠ b) (d.transmitting :: txValues (d.run ops).2) := by
  induction ops generalizing d with
  | nil => simp [Device.run, txValues]
  | cons op ops ih =>
      have hrun : d.run (op :: ops)
          = (((op.apply d).1.run ops).1,
             (op.apply d).2 ++ ((op.apply d).1.run ops).2) := rfl
      rcases step_tx d op with ⟨h0, he⟩ | ⟨h1, hne⟩
      · constructor
        · rw [hrun]
          simp only [txValues_append, h0, List.nil_append]
          rw [(ih (op.apply d).1).1, he]
        · rw [hrun]
          simp only [txValues_append, h0, List.nil_append]
          have := (ih (op.apply d).1).2
          rwa [he] at this
      · constructor
        · rw [hrun]
          simp only [txValues_append, h1, List.cons_append, List.nil_append,
            List.getLastD_cons]
          exact (ih (op.apply d).1).1
        · rw [hrun]
          simp only [txValues_append, h1, List.cons_append, List.nil_append]
          rw [List.chain'_cons]
          exact ⟨fun h => hne h.symm, (ih (op.apply d).1).2⟩

/-- Claim C5: `set_transmitting` is a hook-only no-op (driver not called,
state unchanged) when the device cannot transmit or the value equals the
current state; otherwise the value is stored and forwarded to the transmit
driver; over any run the driver is never called with a value equal to its
current state, and two consecutive equal-valued calls reach the driver at
most once while the hook fires in each call. -/
theorem set_transmitting_contract :
    (∀ d : Device, ∀ v : Bool, (d.can_transmit = false ∨ v = d.transmitting) →
      d.set_transmitting v = (d, [Event.hook])) ∧
    (∀ (d : Device) (v : Bool) (drv : TXDriver),
      d.tx_driver = some drv → v ≠ d.transmitting →
      d.set_transmitting v
        = ({d with transmitting := v}, [Event.txSet drv v, Event.hook])) ∧
    (∀ (d : Device) (ops : List DevOp),
      List.Chain' (fun a b => a ≠ b) (d.transmitting :: txValues (d.run ops).2)) ∧
    (∀ (d : Device) (v : Bool),
      (txValues ((d.set_transmitting v).2
          ++ ((d.set_transmitting v).1.set_transmitting v).2)).length ≤ 1 ∧
      hookCount (d.set_transmitting v).2 = 1 ∧
      hookCount ((d.set_transmitting v).1.set_transmitting v).2 = 1) := by
  refine ⟨set_transmitting_noop, set_transmitting_apply,
    fun d ops => (run_tx_invariant d ops).2, fun d v => ?_⟩
  unfold Device.set_transmitting
  cases htx : d.tx_driver with
  | none => simp [htx, txValues, hookCount]
  | some drv =>
      by_cases hv : v = d.transmitting
      · simp [hv, htx, txValues, hookCount]
      · simp [hv, htx, txValues, hookCount]

/-- Witness for C5: a redundant enable on a transmit-capable device already
transmitting is a pure hook invocation. -/
theorem set_transmitting_contract_witness :
    (txDev 3).set_transmitting false = (txDev 3, [Event.hook]) :=
  set_transmitting_contract.1 (txDev 3) false (Or.inr rfl)

theorem run_no_tx (d : Device) (ops : List DevOp) (htx : d.tx_driver = none)
    (htr : d.transmitting = false) :
    (d.run ops).1.tx_driver = none ∧ (d.run ops).1.transmitting = false ∧
    txValues (d.run ops).2 = [] := by
  induction ops generalizing d with
  | nil => exact ⟨htx, htr, rfl⟩
  | cons op ops ih =>
      have hstep : (op.apply d).1.tx_driver = none ∧
          (op.apply d).1.transmitting = false ∧ txValues (op.apply d).2 = [] := by
        cases op with
        | close => exact ⟨rfl, (close_state d).1.trans htr, (close_state d).2.2.2⟩
        | setTransmitting v =>
            have h := set_transmitting_noop d v
              (Or.inl (by simp [Device.can_transmit, htx]))
            simp only [DevOp.apply, h]
            exact ⟨htx, htr, rfl⟩
      have h2 := ih (op.apply d).1 hstep.1 hstep.2.1
      refine ⟨h2.1, h2.2.1, ?_⟩
      show txValues ((op.apply d).2 ++ ((op.apply d).1.run ops).2) = []
      rw [txValues_append, hstep.2.2, h2.2.2]
      rfl

/-- Claim C6: from construction (transmitting initially false) the private
transmitting state always equals the last value applied to the transmit
driver; on a device constructed with no transmit driver the state can never
become true and no driver call ever happens; in particular
`set_transmitting(true)` on a non-transmitting device without a transmit
driver calls no driver, leaves the state false, and still invokes the
hook. -/
theorem transmitting_state_invariant :
    (∀ (name : Option String) (rx : Option RXDriver) (tx : Option TXDriver)
        (vfo : Option Cell) (comps : List (String × Component)) (ops : List DevOp),
      ((Device.make name rx tx vfo comps).run ops).1.transmitting
        = (txValues ((Device.make name rx tx vfo comps).run ops).2).getLastD false) ∧
    (∀ (name : Option String) (rx : Option RXDriver) (vfo : Option Cell)
        (comps : List (String × Component)) (ops : List DevOp),
      ((Device.make name rx none vfo comps).run ops).1.transmitting = false ∧
      txValues ((Device.make name rx none vfo comps).run ops).2 = []) ∧
    (∀ d : Device, d.tx_driver = none → d.transmitting = false →
      d.set_transmitting true = (d, [Event.hook]) ∧
      (d.set_transmitting true).1.transmitting = false) := by
  refine ⟨?_, ?_, ?_⟩
  · intro name rx tx vfo comps ops
    exact (run_tx_invariant (Device.make name rx tx vfo comps) ops).1
  · intro name rx vfo comps ops
    have h := run_no_tx (Device.make name rx none vfo comps) ops rfl rfl
    exact ⟨h.2.1, h.2.2⟩
  · intro d htx htr
    have h := set_transmitting_noop d true
      (Or.inl (by simp [Device.can_transmit, htx]))
    exact ⟨h, by rw [h]; exact htr⟩

/-- Witness for C6: enabling transmission on a bare device (no transmit
driver) is a hook-only no-op leaving the state false. -/
theorem transmitting_state_invariant_witness :
    bareDev.set_transmitting true = (bareDev, [Event.hook]) ∧
    (bareDev.set_transmitting true).1.transmitting = false :=
  transmitting_state_invariant.2.2 bareDev rfl rfl

theorem close_events_eq (d : Device) :
    (d.close).2
      = (match d.rx_driver with | some r => [Event.rxClose r] | none => [])
        ++ (match d.tx_driver with | some t => [Event.txClose t] | none => [])
        ++ d.components.flatMap (fun p => (closeSlot p.2).2) := rfl

theorem mem_slotEvents (l : List (String × ComponentSlot)) (e : Event)
    (he : e ∈ l.flatMap (fun p => (closeSlot p.2).2)) :
    ∃ c, e = Event.componentClose c := by
  induction l with
  | nil => simp at he
  | cons p rest ih =>
      simp only [List.flatMap_cons, List.mem_append] at he
      rcases he with he | he
      · cases h : p.2 with
        | none => rw [h] at he; simp [closeSlot] at he
        | some c =>
            rw [h] at he
            simp [closeSlot] at he
            exact ⟨c, he⟩
      · exact ih he

theorem closeSlot_some (c : Component) :
    closeSlot (some c) = (none, [Event.componentClose c]) := rfl

theorem closeSlot_none : closeSlot none = (none, []) := rfl

theorem closeSlot_fst (s : ComponentSlot) : (closeSlot s).1 = none := by
  cases s <;> rfl

theorem count_componentClose (l : List (String × ComponentSlot)) (c : Component) :
    ((l.flatMap (fun p => (closeSlot p.2).2)).count (Event.componentClose c))
      = (l.filter (fun p => p.2 = some c)).length := by
  induction l with
  | nil => rfl
  | cons p rest ih =>
      simp only [List.flatMap_cons, List.count_append, List.filter_cons]
      cases h : p.2 with
      | none => simp [h, closeSlot_none, ih]
      | some c' =>
          by_cases hc : c' = c
          · subst hc
            simp [h, closeSlot_some, ih, Nat.add_comm]
          · have h0 : List.count (Event.componentClose c) [Event.componentClose c']
                = 0 := by
              refine List.count_eq_zero_of_not_mem ?_
              simp only [List.mem_singleton, Event.componentClose.injEq]
              exact fun hcc => hc hcc.symm
            simp [h, closeSlot_some, ih, hc, h0]

theorem map_closed_slots (l : List (String × ComponentSlot)) :
    (l.map (fun p => (p.1, (closeSlot p.2).1))).map (fun p => (p.1, (closeSlot p.2).1))
      = l.map (fun p => (p.1, (closeSlot p.2).1)) := by
  rw [List.map_map]
  apply List.map_congr_left
  intro p _
  simp [closeSlot_fst]

theorem flatMap_closed_slots (l : List (String × ComponentSlot)) :
    (l.map (fun p => (p.1, (closeSlot p.2).1))).flatMap (fun p => (closeSlot p.2).2)
      = [] := by
  induction l with
  | nil => rfl
  | cons p rest ih =>
      rw [List.map_cons, List.flatMap_cons, ih, List.append_nil]
      show (closeSlot (closeSlot p.2).1).2 = []
      rw [closeSlot_fst]
      rfl

theorem close_close (d : Device) : (d.close).1.close = ((d.close).1, []) := by
  have hev : ((d.close).1.close).2 = [] := by
    show ([] : List Event) ++ [] ++
        ((d.components.map (fun p => (p.1, (closeSlot p.2).1))).flatMap
          (fun p => (closeSlot p.2).2)) = []
    rw [flatMap_closed_slots]
    rfl
  have hst : ((d.close).1.close).1 = (d.close).1 := by
    show ({ (d.close).1 with
        rx_driver := none
        tx_driver := none
        components := (d.components.map (fun p => (p.1, (closeSlot p.2).1))).map
          (fun p => (p.1, (closeSlot p.2).1)) } : Device) = (d.close).1
    rw [map_closed_slots]
    rfl
  exact Prod.ext_iff.mpr ⟨hst, hev⟩

/-- Claim C7: `close()` emits exactly one close call for the rx driver when
present, one for the tx driver when present, and one per live component;
afterwards every reference is cleared, `can_receive`/`can_transmit` are
false, and a second `close()` performs no driver or component calls and
changes nothing. -/
theorem close_contract (d : Device) :
    (∀ r : RXDriver, ((d.close).2.count (Event.rxClose r))
        = if d.rx_driver = some r then 1 else 0) ∧
    (∀ t : TXDriver, ((d.close).2.count (Event.txClose t))
        = if d.tx_driver = some t then 1 else 0) ∧
    (∀ c : Component, ((d.close).2.count (Event.componentClose c))
        = (d.components.filter (fun p => p.2 = some c)).length) ∧
    (d.close).1.can_receive = false ∧
    (d.close).1.can_transmit = false ∧
    (∀ p ∈ (d.close).1.components, p.2 = none) ∧
    (d.close).1.close = ((d.close).1, []) := by
  have hcnt0 : ∀ e : Event, (∀ c : Component, e ≠ Event.componentClose c) →
      (d.components.flatMap (fun p => (closeSlot p.2).2)).count e = 0 := by
    intro e he
    refine List.count_eq_zero_of_not_mem fun hmem => ?_
    obtain ⟨c, rfl⟩ := mem_slotEvents d.components e hmem
    exact he c rfl
  refine ⟨?_, ?_, ?_, rfl, rfl, ?_, close_close d⟩
  · intro r
    rw [close_events_eq, List.count_append, List.count_append,
      hcnt0 (Event.rxClose r) (by intro c h; cases h)]
    cases d.rx_driver <;> cases d.tx_driver <;>
      simp [List.count_cons, List.count_nil]
  · intro t
    rw [close_events_eq, List.count_append, List.count_append,
      hcnt0 (Event.txClose t) (by intro c h; cases h)]
    cases d.rx_driver <;> cases d.tx_driver <;>
      simp [List.count_cons, List.count_nil]
  · intro c
    rw [close_events_eq, List.count_append, List.count_append,
      count_componentClose]
    cases d.rx_driver <;> cases d.tx_driver <;>
      simp [List.count_cons, List.count_nil]
  · intro p hp
    have hp' : p ∈ d.components.map (fun p => (p.1, (closeSlot p.2).1)) := hp
    rw [List.mem_map] at hp'
    obtain ⟨q, _, rfl⟩ := hp'
    exact closeSlot_fst q.2

/-- Claim C9 (amended): the channel-mapping coercion maps `"IQ"` to
`[[1,0],[0,1]]` and `"QI"` to `[[0,1],[1,0]]`, rejects an explicit two-row
mapping whose rows have different lengths, and maps an integer `n ≥ 1` to a
single-row (1 x n, not n x n) matrix whose row selects input channel `n`:
entry `n-1` is 1 and all others are 0. -/
theorem coerce_channel_mapping_spec :
    _coerce_channel_mapping (.str "IQ") = .ok [[1, 0], [0, 1]] ∧
    _coerce_channel_mapping (.str "QI") = .ok [[0, 1], [1, 0]] ∧
    (∀ n : Int, 1 ≤ n → ∃ row : List ℚ,
      _coerce_channel_mapping (.int n) = .ok [row] ∧
      row.length = n.toNat ∧
      (∀ i : Nat, i < n.toNat →
        row.getD i 0 = if i = n.toNat - 1 then 1 else 0)) ∧
    (∀ row0 row1 : List ℚ, row0.length ≠ row1.length →
      _coerce_channel_mapping (.matrix [row0, row1])
        = .error ("AudioDevice: channel_mapping must have the same number of input channels in each row but had " ++
            toString row0.length ++ " and " ++ toString row1.length)) := by
  refine ⟨by simp [_coerce_channel_mapping], by simp [_coerce_channel_mapping],
    ?_, ?_⟩
  · intro n hn
    refine ⟨(List.range n.toNat).map
        (fun (i : Nat) => if (i : Int) = n - 1 then (1 : ℚ) else (0 : ℚ)),
      ?_, ?_, ?_⟩
    · simp only [_coerce_channel_mapping]
      rw [if_neg (by omega)]
    · rw [List.length_map, List.length_range]
    · intro i hi
      rw [List.getD_eq_getElem?_getD, List.getElem?_map, List.getElem?_range hi]
      simp only [Option.map_some', Option.getD_some]
      by_cases hieq : i = n.toNat - 1
      · rw [if_pos (by omega), if_pos hieq]
      · rw [if_neg (by omega), if_neg hieq]
  · intro row0 row1 hne
    simp only [_coerce_channel_mapping]
    rw [if_pos hne]

/-- Witness for C9 (amended): channel number 3 coerces to the single row
selecting the third channel. -/
theorem coerce_channel_mapping_spec_witness :
    ∃ row : List ℚ, _coerce_channel_mapping (.int 3) = .ok [row] ∧
      row.length = 3 ∧
      (∀ i : Nat, i < 3 → row.getD i 0 = if i = 2 then 1 else 0) :=
  coerce_channel_mapping_spec.2.2.1 3 (by decide)

/-- Counterexample to C9 as stated: coercing the channel number 2 yields the
single-row matrix `[[0, 1]]`, which has 1 row, not the claimed 2 x 2
identity-selecting matrix. -/
theorem coerce_channel_mapping_counterexample :
    _coerce_channel_mapping (.int 2) = .ok [[(0 : ℚ), 1]] ∧
    [[(0 : ℚ), 1]].length ≠ 2 := by
  constructor
  · simp only [_coerce_channel_mapping]
    rw [if_neg (by omega)]
    rfl
  · decide

theorem except_bind_ok (a : α) (f : α → Except ε β) :
    (Except.ok a >>= f : Except ε β) = f a := rfl

theorem except_bind_error (e : ε) (f : α → Except ε β) :
    ((Except.error e : Except ε α) >>= f) = .error e := rfl

theorem at_most_one_spec (name : String) (zero : α) :
    (_at_most_one name zero [] = .ok zero) ∧
    (∀ x : α, _at_most_one name zero [x] = .ok x) ∧
    (∀ (x y : α) (rest : List α), _at_most_one name zero (x :: y :: rest)
      = .error ("Exactly one " ++ name ++ " must be provided, not " ++
          toString (x :: y :: rest).length)) :=
  ⟨rfl, fun _ => rfl, fun _ _ _ => rfl⟩

/-- A successful multi-device merge determines each field of the composite
from the corresponding sub-algorithm. -/
theorem merge_devices_ok_fields (a b : Device) (rest : List Device) (dev : Device)
    (hok : merge_devices (a :: b :: rest) = .ok dev) :
    (∃ rx, _at_most_one "RX driver" none (collected_rx_drivers (a :: b :: rest))
        = .ok rx ∧ dev.rx_driver = rx) ∧
    (∃ tx, _at_most_one "TX driver" none (collected_tx_drivers (a :: b :: rest))
        = .ok tx ∧ dev.tx_driver = tx) ∧
    (∃ vfo, _merge_vfos (merged_vfo_input (a :: b :: rest))
        = .ok vfo ∧ dev.vfo_cell = vfo) ∧
    dev.components = merge_components (a :: b :: rest) ∧
    dev.transmitting = false := by
  simp only [merge_devices] at hok
  cases hrx : _at_most_one "RX driver" (none : Option RXDriver)
      (collected_rx_drivers (a :: b :: rest)) with
  | error e =>
      rw [hrx] at hok
      simp only [except_bind_error] at hok
      exact absurd hok (by simp)
  | ok rx =>
      rw [hrx] at hok
      simp only [except_bind_ok] at hok
      cases htx : _at_most_one "TX driver" (none : Option TXDriver)
          (collected_tx_drivers (a :: b :: rest)) with
      | error e =>
          rw [htx] at hok
          simp only [except_bind_error] at hok
          exact absurd hok (by simp)
      | ok tx =>
          rw [htx] at hok
          simp only [except_bind_ok] at hok
          cases hvfo : _merge_vfos (merged_vfo_input (a :: b :: rest)) with
          | error e =>
              rw [hvfo] at hok
              simp only [except_bind_error] at hok
              exact absurd hok (by simp)
          | ok vfo =>
              rw [hvfo] at hok
              simp only [except_bind_ok, Except.ok.injEq] at hok
              rw [← hok]
              exact ⟨⟨rx, rfl, rfl⟩, ⟨tx, rfl, rfl⟩, ⟨vfo, rfl, rfl⟩, rfl, rfl⟩

/-- A failing sub-algorithm makes the whole merge fail with its error, in
evaluation order: RX first, then TX, then the VFO merge. -/
theorem merge_devices_error_cases (a b : Device) (rest : List Device) :
    (∀ e, _at_most_one "RX driver" none (collected_rx_drivers (a :: b :: rest))
        = .error e → merge_devices (a :: b :: rest) = .error e) ∧
    (∀ rx e, _at_most_one "RX driver" none (collected_rx_drivers (a :: b :: rest))
        = .ok rx →
      _at_most_one "TX driver" none (collected_tx_drivers (a :: b :: rest))
        = .error e →
      merge_devices (a :: b :: rest) = .error e) := by
  constructor
  · intro e hrx
    simp only [merge_devices]
    rw [hrx]
    simp only [except_bind_error]
  · intro rx e hrx htx
    simp only [merge_devices]
    rw [hrx]
    simp only [except_bind_ok]
    rw [htx]
    simp only [except_bind_error]

/-- Claim C4: a multi-device merge collects the rx drivers of exactly the
`can_receive()` devices; zero collected leaves the composite's rx driver
absent, one collected installs that driver, two or more raise the
configuration error naming the role and the count; and the identical rule
holds for tx drivers over `can_transmit()`. -/
theorem merge_driver_uniqueness :
    (∀ (ds : List Device) (dev : Device), 2 ≤ ds.length →
      merge_devices ds = .ok dev → collected_rx_drivers ds = [] →
      dev.rx_driver = none) ∧
    (∀ (ds : List Device) (dev : Device) (r : Option RXDriver), 2 ≤ ds.length →
      merge_devices ds = .ok dev → collected_rx_drivers ds = [r] →
      dev.rx_driver = r) ∧
    (∀ ds : List Device, 2 ≤ ds.length → 2 ≤ (collected_rx_drivers ds).length →
      merge_devices ds = .error ("Exactly one RX driver must be provided, not "
        ++ toString (collected_rx_drivers ds).length)) ∧
    (∀ (ds : List Device) (dev : Device), 2 ≤ ds.length →
      merge_devices ds = .ok dev → collected_tx_drivers ds = [] →
      dev.tx_driver = none) ∧
    (∀ (ds : List Device) (dev : Device) (t : Option TXDriver), 2 ≤ ds.length →
      merge_devices ds = .ok dev → collected_tx_drivers ds = [t] →
      dev.tx_driver = t) ∧
    (∀ ds : List Device, 2 ≤ ds.length → (collected_rx_drivers ds).length ≤ 1 →
      2 ≤ (collected_tx_drivers ds).length →
      merge_devices ds = .error ("Exactly one TX driver must be provided, not "
        ++ toString (collected_tx_drivers ds).length)) := by
  refine ⟨?_, ?_, ?_, ?_, ?_, ?_⟩
  · rintro (_ | ⟨a, _ | ⟨b, rest⟩⟩) dev hlen hok hrx
    · simp at hlen
    · simp at hlen
    obtain ⟨⟨rx, hrx', hdev⟩, -, -, -, -⟩ := merge_devices_ok_fields a b rest dev hok
    rw [hrx, (at_most_one_spec "RX driver" none).1, Except.ok.injEq] at hrx'
    rw [hdev, ← hrx']
  · rintro (_ | ⟨a, _ | ⟨b, rest⟩⟩) dev r hlen hok hrx
    · simp at hlen
    · simp at hlen
    obtain ⟨⟨rx, hrx', hdev⟩, -, -, -, -⟩ := merge_devices_ok_fields a b rest dev hok
    rw [hrx, (at_most_one_spec "RX driver" none).2.1 r, Except.ok.injEq] at hrx'
    rw [hdev, ← hrx']
  · rintro (_ | ⟨a, _ | ⟨b, rest⟩⟩) hlen h2
    · simp at hlen
    · simp at hlen
    rcases hc : collected_rx_drivers (a :: b :: rest) with _ | ⟨x, _ | ⟨y, rest2⟩⟩ <;>
      rw [hc] at h2
    · simp at h2
    · simp at h2
    exact (merge_devices_error_cases a b rest).1 _
      (by rw [hc]; exact (at_most_one_spec "RX driver" none).2.2 x y rest2)
  · rintro (_ | ⟨a, _ | ⟨b, rest⟩⟩) dev hlen hok htx
    · simp at hlen
    · simp at hlen
    obtain ⟨-, ⟨tx, htx', hdev⟩, -, -, -⟩ := merge_devices_ok_fields a b rest dev hok
    rw [htx, (at_most_one_spec "TX driver" none).1, Except.ok.injEq] at htx'
    rw [hdev, ← htx']
  · rintro (_ | ⟨a, _ | ⟨b, rest⟩⟩) dev t hlen hok htx
    · simp at hlen
    · simp at hlen
    obtain ⟨-, ⟨tx, htx', hdev⟩, -, -, -⟩ := merge_devices_ok_fields a b rest dev hok
    rw [htx, (at_most_one_spec "TX driver" none).2.1 t, Except.ok.injEq] at htx'
    rw [hdev, ← htx']
  · rintro (_ | ⟨a, _ | ⟨b, rest⟩⟩) hlen hr1 h2
    · simp at hlen
    · simp at hlen
    have hrxok : ∃ rx, _at_most_one "RX driver" none
        (collected_rx_drivers (a :: b :: rest)) = .ok rx := by
      rcases hc : collected_rx_drivers (a :: b :: rest) with _ | ⟨x, _ | ⟨y, rest2⟩⟩
      · exact ⟨none, (at_most_one_spec "RX driver" none).1⟩
      · exact ⟨x, (at_most_one_spec "RX driver" none).2.1 x⟩
      · rw [hc] at hr1; simp at hr1
    obtain ⟨rx, hrxok⟩ := hrxok
    rcases hc : collected_tx_drivers (a :: b :: rest) with _ | ⟨x, _ | ⟨y, rest2⟩⟩ <;>
      rw [hc] at h2
    · simp at h2
    · simp at h2
    exact (merge_devices_error_cases a b rest).2 rx _ hrxok
      (by rw [hc]; exact (at_most_one_spec "TX driver" none).2.2 x y rest2)

/-- Witness for C4: merging two receive-capable devices raises the RX-driver
uniqueness error reporting the count 2. -/
theorem merge_driver_uniqueness_witness :
    merge_devices [rxDev 1, rxDev 2]
      = .error ("Exactly one RX driver must be provided, not "
          ++ toString (collected_rx_drivers [rxDev 1, rxDev 2]).length) :=
  merge_driver_uniqueness.2.2.1 [rxDev 1, rxDev 2] (by decide) (by decide)

/-- Claim C8: the frequency merge receives exactly the VFO cells of the
`can_tune()` devices; a device holding the fixed-at-zero sentinel
contributes nothing at all (not even a zero fixed term), so inserting such a
device anywhere leaves the frequency-merge input unchanged; and a successful
multi-device merge installs exactly the frequency-merge result as the
composite VFO. -/
theorem merge_vfo_input_spec :
    (∀ ds : List Device, merged_vfo_input ds = ds.filterMap Device.vfo_cell) ∧
    (∀ (ds1 ds2 : List Device) (s : Device), s.vfo_cell = none →
      merged_vfo_input (ds1 ++ s :: ds2) = merged_vfo_input (ds1 ++ ds2)) ∧
    (∀ (ds : List Device) (dev : Device), 2 ≤ ds.length →
      merge_devices ds = .ok dev →
      _merge_vfos (merged_vfo_input ds) = .ok dev.vfo_cell) := by
  have h1 : ∀ ds : List Device,
      merged_vfo_input ds = ds.filterMap Device.vfo_cell := by
    intro ds
    induction ds with
    | nil => rfl
    | cons d rest ih =>
        unfold merged_vfo_input at ih ⊢
        rw [List.filter_cons, List.filterMap_cons]
        cases hv : d.vfo_cell with
        | none =>
            have hct : d.can_tune = false := by
              simp [Device.can_tune, hv]
            rw [hct]
            simpa using ih
        | some c =>
            have hct : d.can_tune = true := by
              simp [Device.can_tune, hv]
            rw [hct]
            simp only [if_true, List.map_cons]
            rw [ih]
            have hg : d.get_vfo_cell = c := by
              simp [Device.get_vfo_cell, hv]
            rw [hg]
  refine ⟨h1, ?_, ?_⟩
  · intro ds1 ds2 s hs
    rw [h1, h1, List.filterMap_append, List.filterMap_append,
      List.filterMap_cons, hs]
  · rintro (_ | ⟨a, _ | ⟨b, rest⟩⟩) dev hlen hok
    · simp at hlen
    · simp at hlen
    obtain ⟨-, -, ⟨vfo, hvfo, hdev⟩, -, -⟩ :=
      merge_devices_ok_fields a b rest dev hok
    rw [hdev, ← hvfo]

/-- Witness for C8: appending the sentinel-VFO bare device changes nothing
about the frequency-merge input. -/
theorem merge_vfo_input_spec_witness :
    merged_vfo_input [txDev 2, bareDev] = merged_vfo_input [txDev 2] :=
  merge_vfo_input_spec.2.1 [txDev 2] [] bareDev rfl

theorem any_key_eq (m : List (String × α)) (k : String) :
    (m.any fun p => p.1 = k) = true ↔ k ∈ m.map Prod.fst := by
  rw [List.any_eq_true]
  constructor
  · rintro ⟨p, hp, hk⟩
    simp only [decide_eq_true_eq] at hk
    exact List.mem_map.mpr ⟨p, hp, hk⟩
  · intro h
    rw [List.mem_map] at h
    obtain ⟨p, hp, hk⟩ := h
    exact ⟨p, hp, by simp [hk]⟩

theorem dictInsert_keys (m : List (String × α)) (k : String) (v : α) :
    (dictInsert m k v).map Prod.fst
      = if k ∈ m.map Prod.fst then m.map Prod.fst
        else m.map Prod.fst ++ [k] := by
  unfold dictInsert
  by_cases h : k ∈ m.map Prod.fst
  · rw [if_pos ((any_key_eq m k).mpr h), if_pos h, List.map_map]
    refine List.map_congr_left ?_
    intro p _
    by_cases hp : p.1 = k <;> simp [hp]
  · rw [if_neg (fun hc => h ((any_key_eq m k).mp hc)), if_neg h,
      List.map_append]
    rfl

theorem mem_dictInsert_keys (m : List (String × α)) (k k' : String) (v : α) :
    k' ∈ (dictInsert m k v).map Prod.fst ↔ k' ∈ m.map Prod.fst ∨ k' = k := by
  rw [dictInsert_keys]
  by_cases h : k ∈ m.map Prod.fst
  · rw [if_pos h]
    constructor
    · exact Or.inl
    · rintro (hk | rfl)
      · exact hk
      · exact h
  · rw [if_neg h, List.mem_append, List.mem_singleton]

theorem mem_comp_fold (comps : List (String × ComponentSlot)) (pfx : String)
    (acc : List (String × ComponentSlot)) (k' : String) :
    (k' ∈ (comps.foldl (fun acc kc => dictInsert acc (pfx ++ kc.1) kc.2)
        acc).map Prod.fst)
      ↔ k' ∈ acc.map Prod.fst ∨ ∃ kc ∈ comps, k' = pfx ++ kc.1 := by
  induction comps generalizing acc with
  | nil => simp
  | cons kc rest ih =>
      rw [List.foldl_cons, ih, mem_dictInsert_keys]
      simp only [List.mem_cons, exists_eq_or_imp]
      tauto

theorem mem_merge_fold (entries : List (Nat × Device)) (ds : List Device)
    (acc : List (String × ComponentSlot)) (k' : String) :
    (k' ∈ (entries.foldl
        (fun acc p =>
          p.2.components.foldl
            (fun acc kc => dictInsert acc (devicePfx ds p.1 p.2 ++ kc.1) kc.2)
            acc)
        acc).map Prod.fst)
      ↔ k' ∈ acc.map Prod.fst ∨
        ∃ p ∈ entries, ∃ kc ∈ p.2.components,
          k' = devicePfx ds p.1 p.2 ++ kc.1 := by
  induction entries generalizing acc with
  | nil => simp
  | cons p rest ih =>
      rw [List.foldl_cons, ih, mem_comp_fold]
      simp only [List.mem_cons, exists_eq_or_imp]
      exact or_assoc

theorem mem_mergeKeys (ds : List Device) (k' : String) :
    k' ∈ mergedKeys ds
      ↔ ∃ p ∈ ds.enum, ∃ key ∈ p.2.componentKeys,
          k' = devicePfx ds p.1 p.2 ++ key := by
  unfold mergedKeys merge_components
  rw [mem_merge_fold]
  simp only [List.map_nil, List.not_mem_nil, false_or]
  constructor
  · rintro ⟨p, hp, kc, hkc, rfl⟩
    exact ⟨p, hp, kc.1, List.mem_map.mpr ⟨kc, hkc, rfl⟩, rfl⟩
  · rintro ⟨p, hp, key, hkey, rfl⟩
    rw [Device.componentKeys, List.mem_map] at hkey
    obtain ⟨kc, hkc, rfl⟩ := hkey
    exact ⟨p, hp, kc, hkc, rfl⟩

theorem devicePfx_empty (ds : List Device) (i : Nat) (d : Device)
    (h : ∀ k ∈ d.componentKeys, keyCount ds k = 1) :
    devicePfx ds i d = "" := by
  unfold devicePfx
  rw [if_neg]
  rw [List.any_eq_true]
  rintro ⟨k, hk, hlt⟩
  simp only [decide_eq_true_eq] at hlt
  rw [h k hk] at hlt
  exact lt_irrefl 1 hlt

theorem devicePfx_idx (ds : List Device) (i : Nat) (d : Device)
    (h : ∃ k ∈ d.componentKeys, 1 < keyCount ds k) :
    devicePfx ds i d = toString i ++ "-" := by
  unfold devicePfx
  rw [if_pos]
  rw [List.any_eq_true]
  obtain ⟨k, hk, hlt⟩ := h
  exact ⟨k, hk, by simp [hlt]⟩

theorem keyCount_two_devices (A B : Device) (k : String)
    (hA : k ∈ A.componentKeys) (hB : k ∈ B.componentKeys) :
    1 < keyCount [A, B] k := by
  unfold keyCount
  have hfl : [A, B].flatMap Device.componentKeys
      = A.componentKeys ++ B.componentKeys := by simp
  rw [hfl, List.count_append]
  have h1 := List.count_pos_iff.mpr hA
  have h2 := List.count_pos_iff.mpr hB
  omega

theorem keyCount_congr (ds ds' : List Device)
    (hmap : ds.map Device.componentKeys = ds'.map Device.componentKeys)
    (x : String) : keyCount ds x = keyCount ds' x := by
  unfold keyCount
  have h1 : ∀ l : List Device,
      l.flatMap Device.componentKeys = (l.map Device.componentKeys).flatten := by
    intro l
    induction l with
    | nil => rfl
    | cons d rest ih => simp [ih]
  rw [h1, h1, hmap]

theorem mergedKeys_transfer (ds ds' : List Device)
    (hmap : ds.map Device.componentKeys = ds'.map Device.componentKeys)
    (k : String) (hk : k ∈ mergedKeys ds) : k ∈ mergedKeys ds' := by
  rw [mem_mergeKeys] at hk ⊢
  obtain ⟨⟨i, d⟩, hp, key, hkey, heq⟩ := hk
  rw [List.mk_mem_enum_iff_getElem?] at hp
  have hmapi : (ds.map Device.componentKeys)[i]? = some d.componentKeys := by
    rw [List.getElem?_map, hp]
    rfl
  rw [hmap, List.getElem?_map] at hmapi
  cases hd' : ds'[i]? with
  | none => rw [hd'] at hmapi; simp at hmapi
  | some d' =>
      rw [hd'] at hmapi
      simp only [Option.map_some', Option.some.injEq] at hmapi
      have hcnt : (fun k => decide (1 < keyCount ds k))
          = (fun k => decide (1 < keyCount ds' k)) := by
        funext x
        rw [keyCount_congr ds ds' hmap x]
      have hpfx : devicePfx ds' i d' = devicePfx ds i d := by
        unfold devicePfx
        rw [hmapi, ← hcnt]
      refine ⟨(i, d'), List.mk_mem_enum_iff_getElem?.mpr hd', key, ?_, ?_⟩
      · rw [hmapi]
        exact hkey
      · rw [hpfx]
        exact heq

/-- Claim C3 (amended): a device's components are merged unprefixed when
none of its keys occurs elsewhere, and with the zero-based index-plus-dash
prefix on every key otherwise; the output keys depend only on the ordered
key lists (determinism); for two devices sharing a key `k`, the composite
contains `0-k` and `1-k`, and contains `k` itself only when `k` coincides
with the prefixed form of some other key of one of the devices. -/
theorem merge_components_spec :
    (∀ (ds : List Device) (dev : Device), 2 ≤ ds.length →
      merge_devices ds = .ok dev → dev.components = merge_components ds) ∧
    (∀ ds : List Device, ∀ p ∈ ds.enum,
      ((∀ k ∈ p.2.componentKeys, keyCount ds k = 1) →
        ∀ k ∈ p.2.componentKeys, k ∈ mergedKeys ds) ∧
      ((∃ k ∈ p.2.componentKeys, 1 < keyCount ds k) →
        ∀ k ∈ p.2.componentKeys, (toString p.1 ++ "-" ++ k) ∈ mergedKeys ds)) ∧
    (∀ (A B : Device) (k : String), k ∈ A.componentKeys → k ∈ B.componentKeys →
      ("0-" ++ k) ∈ mergedKeys [A, B] ∧
      ("1-" ++ k) ∈ mergedKeys [A, B] ∧
      ((∀ x ∈ A.componentKeys, "0-" ++ x ≠ k) →
       (∀ y ∈ B.componentKeys, "1-" ++ y ≠ k) →
       k ∉ mergedKeys [A, B])) ∧
    (∀ ds ds' : List Device,
      ds.map Device.componentKeys = ds'.map Device.componentKeys →
      ∀ k : String, k ∈ mergedKeys ds ↔ k ∈ mergedKeys ds') := by
  refine ⟨?_, ?_, ?_, ?_⟩
  · rintro (_ | ⟨a, _ | ⟨b, rest⟩⟩) dev hlen hok
    · simp at hlen
    · simp at hlen
    obtain ⟨-, -, -, hcomp, -⟩ := merge_devices_ok_fields a b rest dev hok
    exact hcomp
  · intro ds p hp
    constructor
    · intro hall k hk
      rw [mem_mergeKeys]
      refine ⟨p, hp, k, hk, ?_⟩
      rw [devicePfx_empty ds p.1 p.2 hall, String.empty_append]
    · intro hex k hk
      rw [mem_mergeKeys]
      exact ⟨p, hp, k, hk, by rw [devicePfx_idx ds p.1 p.2 hex]⟩
  · intro A B k hA hB
    have hcnt := keyCount_two_devices A B k hA hB
    have hpfxA : devicePfx [A, B] 0 A = "0-" :=
      devicePfx_idx [A, B] 0 A ⟨k, hA, hcnt⟩
    have hpfxB : devicePfx [A, B] 1 B = "1-" :=
      devicePfx_idx [A, B] 1 B ⟨k, hB, hcnt⟩
    have henumA : ((0 : Nat), A) ∈ [A, B].enum := by
      rw [show [A, B].enum = [((0 : Nat), A), (1, B)] from rfl]
      exact List.mem_cons_self _ _
    have henumB : ((1 : Nat), B) ∈ [A, B].enum := by
      rw [show [A, B].enum = [((0 : Nat), A), (1, B)] from rfl]
      exact List.mem_cons_of_mem _ (List.mem_cons_self _ _)
    refine ⟨?_, ?_, ?_⟩
    · rw [mem_mergeKeys]
      exact ⟨(0, A), henumA, k, hA, by rw [hpfxA]⟩
    · rw [mem_mergeKeys]
      exact ⟨(1, B), henumB, k, hB, by rw [hpfxB]⟩
    · intro hax hby hk
      rw [mem_mergeKeys] at hk
      obtain ⟨p, hp, key, hkey, heq⟩ := hk
      have hp' : p = ((0 : Nat), A) ∨ p = ((1 : Nat), B) := by
        have hmem : p ∈ [((0 : Nat), A), (1, B)] := hp
        simpa using hmem
      rcases hp' with rfl | rfl
      · rw [hpfxA] at heq
        exact hax key hkey heq.symm
      · rw [hpfxB] at heq
        exact hby key hkey heq.symm
  · intro ds ds' hmap k
    exact ⟨mergedKeys_transfer ds ds' hmap k,
      mergedKeys_transfer ds' ds hmap.symm k⟩

/-- Witness for C3 (amended): two devices each holding the single component
key `k` merge to the keys `0-k` and `1-k`, and `k` itself is absent. -/
theorem merge_components_spec_witness :
    ("0-" ++ "k") ∈ mergedKeys [devC, devD] ∧
    ("1-" ++ "k") ∈ mergedKeys [devC, devD] ∧
    "k" ∉ mergedKeys [devC, devD] := by
  have h := merge_components_spec.2.2.1 devC devD "k" (by decide) (by decide)
  exact ⟨h.1, h.2.1, h.2.2 (by decide) (by decide)⟩

/-- Counterexample to C3 as stated: device A with keys `0-j` and `j` and
device B with key `0-j` share the key `0-j`; the merged mapping contains
`0-0-j` and `1-0-j` as the claim says, but it also contains the shared key
`0-j` itself, produced by prefixing the other key `j` of A. -/
theorem merge_components_counterexample :
    "0-j" ∈ devA.componentKeys ∧ "0-j" ∈ devB.componentKeys ∧
    ("0-" ++ "0-j") ∈ mergedKeys [devA, devB] ∧
    ("1-" ++ "0-j") ∈ mergedKeys [devA, devB] ∧
    "0-j" ∈ mergedKeys [devA, devB] := by decide

end ShinySDR
